import Mathlib

/-
  Verification development for the go-pipe library (src/pipe.go).

  The library chains Go functions ("stages") into a pipeline: `New` / `Add`
  build the stage sequence, `Execute` runs the stages in order by reflection,
  threading the outputs of each stage into the next one as inputs.

  The embedding below models the reflection-level behaviour of `Execute`
  (pipe.go lines 54-114), `New` (lines 17-26) and `Add` (lines 29-37) over a
  universe of runtime values that covers the phenomena the code inspects:
  dynamic types, interface nil-ness, the distinguished result type named
  "error", and concrete named types that implement the error interface.
-/

namespace GoPipe

/-- Model of the reflect-level Go types the engine inspects: the engine only
ever looks at a type through `Type.Name()` (the check against the name
"error"), assignability (`Type.AssignableTo`) and nil-ability of the kind
(`Value.IsNil`). `int` and `str` stand for ordinary non-error types,
`errorIface` is the error interface type itself (name "error", interface
kind), and `namedErr n` is a concrete defined type of name `n` that
implements the error interface (struct kind, not nil-able). -/
inductive GoType where
  | int
  | str
  | errorIface
  | namedErr (name : String)
  deriving DecidableEq, Repr

/-- Model of `reflect.Type.Name()`. -/
def typeName : GoType → String
  | .int => "int"
  | .str => "string"
  | .errorIface => "error"
  | .namedErr n => n

/-- Whether `reflect.Value.IsNil()` is legal on a value of this type
(interface kinds are; the other kinds in our universe panic). -/
def isNilable : GoType → Bool
  | .errorIface => true
  | _ => false

/-- Whether the type implements the `error` interface. -/
def implementsError : GoType → Bool
  | .errorIface => true
  | .namedErr _ => true
  | _ => false

/-- Model of `reflect.Type.AssignableTo`: a one-directional assignability
check. In our universe a type is assignable to another when they are
identical, or when the target is the error interface and the source
implements it. -/
def assignableTo (src dst : GoType) : Bool :=
  src == dst || (dst == GoType.errorIface && implementsError src)

/-- Model of the runtime values flowing through the pipeline as
`interface{}`: the untyped nil interface, integers, strings, and non-nil
values of a concrete named error type `tname` carrying a message. -/
inductive GoValue where
  | nilV
  | intV (n : Int)
  | strV (s : String)
  | errV (tname : String) (msg : String)
  deriving DecidableEq, Repr

/-- Model of `reflect.TypeOf` on an `interface{}` value: `none` for the nil
interface (Go returns a nil `reflect.Type`), otherwise the dynamic type. -/
def typeOf : GoValue → Option GoType
  | .nilV => none
  | .intV _ => some .int
  | .strV _ => some .str
  | .errV tn _ => some (.namedErr tn)

/-- A stage: one function stored in the pipeline, with its reflect-visible
signature (`params` models `Type.In`, arity is `params.length` = `NumIn`;
`results` models `Type.Out`) and its behaviour `impl` (what
`reflect.Value.Call` computes on given argument values). -/
structure Stage where
  params : List GoType
  results : List GoType
  impl : List GoValue → List GoValue

/-- Model of the `Pipe` struct (pipe.go lines 11-14): the ordered function
sequence. The mutex only serialises calls and has no sequential effect. -/
structure Pipe where
  funcs : List Stage

/-- A candidate argument to `New` / `Add`: an `interface{}` value that is
either a function (with its signature and behaviour) or some other value. -/
inductive Candidate where
  | fn (s : Stage)
  | val (v : GoValue)

/-- Result of `New` (pipe.go lines 17-26). `reflect.TypeOf(nil)` is a nil
`reflect.Type`, so calling `.Kind()` on a nil candidate panics; a non-nil
non-function candidate fails the `Kind() != reflect.Func` test and `New`
returns the error "argument is not a function". -/
inductive NewResult where
  | panicked
  | notCallable
  | ok (p : Pipe)

/-- The loop body of `New`: validate each candidate with
`reflect.TypeOf(f).Kind() != reflect.Func` and append it to the function
sequence, failing on the first non-function (pipe.go lines 19-24). -/
def NewLoop : List Candidate → List Stage → NewResult
  | [], acc => .ok ⟨acc⟩
  | .fn s :: rest, acc => NewLoop rest (acc ++ [s])
  | .val .nilV :: _, _ => .panicked
  | .val _ :: _, _ => .notCallable

/-- Model of `New` (pipe.go lines 17-26). -/
def New (cands : List Candidate) : NewResult :=
  NewLoop cands []

/-- Result of `Add` (pipe.go lines 29-37), same validation as `New`. -/
inductive AddResult where
  | panicked
  | notCallable
  | ok

/-- Model of `Pipe.Add` (pipe.go lines 29-37): validate the candidate, then
append it to the function sequence; on failure the sequence is unchanged.
The returned pair is (outcome, resulting pipe state). -/
def Pipe.Add (p : Pipe) (c : Candidate) : AddResult × Pipe :=
  match c with
  | .fn s => (.ok, ⟨p.funcs ++ [s]⟩)
  | .val .nilV => (.panicked, p)
  | .val _ => (.notCallable, p)

/-- The errors `Execute` can return: the arity error "not enough arguments
for function" (pipe.go line 77), the surplus-selection error "invalid
arguments function" (line 89), and a non-nil error value returned by a stage
itself (lines 101-103). -/
inductive ExecErr where
  | arityErr
  | argTypeErr
  | stageErr (v : GoValue)
  deriving DecidableEq, Repr

/-- Outcome of `Execute` or of one iteration of its loop: a reflection panic,
an error return (with nil outputs), or a value list — the outputs handed to
the next stage by one iteration, or the final return value of `Execute`. -/
inductive ExecResult where
  | panicked
  | failed (e : ExecErr)
  | ok (vals : List GoValue)
  deriving DecidableEq, Repr

/-- Model of the per-position surplus check at pipe.go line 83:
`inputs[i] != nil && reflect.TypeOf(inputs[i]).AssignableTo(reflect.TypeOf(in[i].Interface()))`.
In the surplus branch `in[i]` was set at line 70 to
`reflect.ValueOf(inputs[i])`, so `in[i].Interface()` is `inputs[i]` itself
and the assignability check compares the dynamic type of `inputs[i]` with
itself; the declared parameter type `fnType.In(i)` is not consulted. The
`&&` short-circuit means no call is made on a nil value. -/
def selectOK (v : GoValue) : Bool :=
  match typeOf v with
  | none => false
  | some t => assignableTo t t

/-- Whether `reflect.Value.Call` accepts the value as the argument for a
parameter of declared type `t`: the value must be a valid `reflect.Value`
(`reflect.ValueOf(nil)` is the invalid zero Value, and `Call` panics on it)
whose dynamic type is assignable to `t` (otherwise `Call` panics with a
"using ... as type ..." error). -/
def assignOK (v : GoValue) (t : GoType) : Bool :=
  match typeOf v with
  | none => false
  | some tv => assignableTo tv t

/-- Whether `reflect.ValueOf(fn).Call(in)` at pipe.go line 95 returns instead
of panicking: the argument count must match and every argument must be a
valid value assignable to the declared parameter type at its position. -/
def callOK (fn : Stage) (args : List GoValue) : Bool :=
  args.length == fn.params.length &&
  (args.zip fn.params).all fun p => assignOK p.1 p.2

/-- Model of the output scan at pipe.go lines 98-106, over the returned
values paired with their declared result types (`reflect.Call` returns
values typed by the declared result types, and `out` values are always
valid, so the `o.IsValid()` guard at line 99 always holds). Each value is
appended to `outputs`; when the declared result type has name "error" the
code evaluates `!o.IsNil()`, which panics if the type is not of a nil-able
kind, and otherwise returns the value as the error result if it is non-nil.
The code appends the offending value to `outputs` before returning, but it
returns `nil` outputs, so the accumulator is discarded either way. -/
def scanOutputs (acc : List GoValue) : List (GoType × GoValue) → ExecResult
  | [] => .ok acc
  | (t, v) :: rest =>
    if typeName t = "error" then
      if isNilable t then
        if v = .nilV then scanOutputs (acc ++ [v]) rest
        else .failed (.stageErr v)
      else .panicked
    else scanOutputs (acc ++ [v]) rest

/-- The call-and-collect part of one loop iteration (pipe.go lines 94-106):
call the function with the selected arguments (panicking as `reflect.Call`
would on invalid or non-assignable arguments) and scan the returned values
against the declared result types. -/
def invokeStage (fn : Stage) (args : List GoValue) : ExecResult :=
  if callOK fn args then
    scanOutputs [] (fn.results.zip (fn.impl args))
  else .panicked

/-- One iteration of the `Execute` loop for one function (pipe.go lines
62-110): with `numIn = fnType.NumIn()`, a deficit of inputs returns the
arity error (line 76); a surplus runs the per-position check of line 83 over
the first `numIn` inputs, counting the passing positions in `j`, and either
calls the function on exactly those first `numIn` inputs or returns the
invalid-arguments error when `j != numIn` (lines 78-92); an exact match
calls the function on the inputs as built at line 70, with no check of any
kind before the call. -/
def execStep (fn : Stage) (inputs : List GoValue) : ExecResult :=
  if inputs.length < fn.params.length then .failed .arityErr
  else if inputs.length > fn.params.length then
    if (inputs.take fn.params.length).countP selectOK = fn.params.length then
      invokeStage fn (inputs.take fn.params.length)
    else .failed .argTypeErr
  else invokeStage fn inputs

/-- The `Execute` loop (pipe.go lines 62-111): run each function on the
current inputs; an error or panic aborts the whole run, otherwise the
outputs become the inputs of the next function. After the loop the final
inputs are returned with a nil error (line 113; `err` is always nil
there). -/
def ExecuteLoop : List Stage → List GoValue → ExecResult
  | [], inputs => .ok inputs
  | fn :: rest, inputs =>
    match execStep fn inputs with
    | .ok outs => ExecuteLoop rest outs
    | r => r

/-- Model of `Pipe.Execute` (pipe.go lines 54-114). -/
def Pipe.Execute (p : Pipe) (args : List GoValue) : ExecResult :=
  ExecuteLoop p.funcs args

/-! ### Concrete stages used in witnesses and counterexamples -/

/-- A stage `func(a int) int` returning `a + 1`. -/
def incStage : Stage :=
  ⟨[.int], [.int], fun args =>
    match args with
    | [.intV n] => [.intV (n + 1)]
    | _ => [.nilV]⟩

/-- A stage `func(a int) (int, error)` that succeeds, returning its argument
and a nil error. -/
def okStage : Stage :=
  ⟨[.int], [.int, .errorIface], fun args =>
    match args with
    | [v] => [v, .nilV]
    | _ => [.nilV, .nilV]⟩

/-- A stage `func(a int) (int, error)` that always fails with a non-nil
error value. -/
def failStage : Stage :=
  ⟨[.int], [.int, .errorIface], fun _ =>
    [.intV 0, .errV "errorString" "division by zero"]⟩

/-- A stage `func(a int, e error) int`. -/
def pairStage : Stage :=
  ⟨[.int, .errorIface], [.int], fun _ => [.intV 0]⟩

/-- A stage `func(a int) MyErr` whose declared result type is a concrete
named type implementing the error interface, not `error` itself. -/
def myErrStage : Stage :=
  ⟨[.int], [.namedErr "MyErr"], fun _ => [.errV "MyErr" "boom"]⟩

/-- A stage `func(e MyErr) string` consuming a concrete error value. -/
def sinkStage : Stage :=
  ⟨[.namedErr "MyErr"], [.str], fun _ => [.strV "done"]⟩

/-! ### Helper lemmas -/

/-- Assignability is reflexive: every type is assignable to itself. -/
theorem assignableTo_self (t : GoType) : assignableTo t t = true := by
  simp [assignableTo]

/-- A value accepted by `reflect.Call` for some declared parameter type also
passes the self-directed surplus check of pipe.go line 83. -/
theorem selectOK_of_assignOK (v : GoValue) (t : GoType)
    (h : assignOK v t = true) : selectOK v = true := by
  simp only [assignOK] at h
  simp only [selectOK]
  cases hv : typeOf v with
  | none => rw [hv] at h; exact absurd h (by simp)
  | some tv => rw [hv] at h; exact assignableTo_self tv

/-- Every element of a list shorter than another list is the first component
of some pair of their zip. -/
theorem mem_zip_left {α β : Type} :
    ∀ (l₁ : List α) (l₂ : List β), l₁.length ≤ l₂.length →
      ∀ v ∈ l₁, ∃ u, (v, u) ∈ l₁.zip l₂ := by
  intro l₁
  induction l₁ with
  | nil => intro l₂ _ v hv; exact absurd hv (List.not_mem_nil v)
  | cons a l ih =>
    intro l₂ hle v hv
    cases l₂ with
    | nil => simp at hle
    | cons b l₂' =>
      rcases List.mem_cons.mp hv with rfl | hv'
      · exact ⟨b, by simp⟩
      · obtain ⟨u, hu⟩ := ih l₂' (by simpa using hle) v hv'
        exact ⟨u, by simp [hu]⟩

/-- When the inputs suffice and, in the surplus case, every one of the first
`numIn` positions passes the check of pipe.go line 83, the loop iteration
calls the function on exactly the first `numIn` inputs. -/
theorem execStep_call (fn : Stage) (inputs : List GoValue)
    (h1 : fn.params.length ≤ inputs.length)
    (h2 : fn.params.length < inputs.length →
      (inputs.take fn.params.length).countP selectOK = fn.params.length) :
    execStep fn inputs = invokeStage fn (inputs.take fn.params.length) := by
  rcases Nat.lt_or_ge fn.params.length inputs.length with hlt | hge
  · simp only [execStep]
    rw [if_neg (by omega), if_pos hlt, if_pos (h2 hlt)]
  · have heq : inputs.length = fn.params.length := Nat.le_antisymm hge h1
    simp only [execStep]
    rw [if_neg (by omega), if_neg (by omega), ← heq, List.take_length]

/-- When `reflect.Call` accepts the arguments, the iteration reduces to the
output scan. -/
theorem invokeStage_ok (fn : Stage) (args : List GoValue)
    (h : callOK fn args = true) :
    invokeStage fn args = scanOutputs [] (fn.results.zip (fn.impl args)) := by
  simp [invokeStage, h]

/-- When `reflect.Call` rejects the arguments it panics. -/
theorem invokeStage_panic (fn : Stage) (args : List GoValue)
    (h : callOK fn args = false) : invokeStage fn args = .panicked := by
  simp [invokeStage, h]

/-- Unfolding of the `Execute` loop when an iteration produces outputs. -/
theorem ExecuteLoop_cons_ok (fn : Stage) (rest : List Stage)
    (inputs outs : List GoValue) (h : execStep fn inputs = .ok outs) :
    ExecuteLoop (fn :: rest) inputs = ExecuteLoop rest outs := by
  simp only [ExecuteLoop, h]

/-- Unfolding of the `Execute` loop when an iteration returns an error. -/
theorem ExecuteLoop_cons_failed (fn : Stage) (rest : List Stage)
    (inputs : List GoValue) (e : ExecErr) (h : execStep fn inputs = .failed e) :
    ExecuteLoop (fn :: rest) inputs = .failed e := by
  simp only [ExecuteLoop, h]

/-- Unfolding of the `Execute` loop when an iteration panics. -/
theorem ExecuteLoop_cons_panicked (fn : Stage) (rest : List Stage)
    (inputs : List GoValue) (h : execStep fn inputs = .panicked) :
    ExecuteLoop (fn :: rest) inputs = .panicked := by
  simp only [ExecuteLoop, h]

/-- The output scan of pipe.go lines 98-106 threads every returned value —
including nil values in "error"-typed slots — when no slot holds a non-nil
value of a type named "error". -/
theorem scan_no_fail :
    ∀ (l : List (GoType × GoValue)) (acc : List GoValue),
      (∀ p ∈ l, typeName p.1 = "error" →
        (isNilable p.1 = true ∧ p.2 = GoValue.nilV)) →
      scanOutputs acc l = .ok (acc ++ l.map Prod.snd) := by
  intro l
  induction l with
  | nil => intro acc _; simp [scanOutputs]
  | cons hd tl ih =>
    intro acc h
    obtain ⟨t, v⟩ := hd
    by_cases ht : typeName t = "error"
    · obtain ⟨hnb, hv⟩ := h (t, v) (by simp) ht
      subst hv
      rw [scanOutputs, if_pos ht, if_pos hnb, if_pos rfl,
        ih _ (fun p hp => h p (by simp [hp]))]
      simp
    · rw [scanOutputs, if_neg ht, ih _ (fun p hp => h p (by simp [hp]))]
      simp

/-- The output scan of pipe.go lines 98-106 stops at the first non-nil value
in a result slot of a type named "error" and returns it as the error result,
for any accumulated outputs. -/
theorem scan_first_fail :
    ∀ (l : List (GoType × GoValue)),
      (∀ p ∈ l, typeName p.1 = "error" → isNilable p.1 = true) →
      (∃ p ∈ l, typeName p.1 = "error" ∧ p.2 ≠ GoValue.nilV) →
      ∃ v, v ≠ GoValue.nilV ∧
        (∃ p ∈ l, typeName p.1 = "error" ∧ p.2 = v) ∧
        ∀ acc, scanOutputs acc l = .failed (.stageErr v) := by
  intro l
  induction l with
  | nil => intro _ hex; simp at hex
  | cons hd tl ih =>
    intro hnil hex
    obtain ⟨t, v⟩ := hd
    by_cases ht : typeName t = "error"
    · have hnb : isNilable t = true := hnil (t, v) (by simp) ht
      by_cases hv : v = GoValue.nilV
      · subst hv
        have hex' : ∃ p ∈ tl, typeName p.1 = "error" ∧ p.2 ≠ GoValue.nilV := by
          rcases hex with ⟨p, hp, hp1, hp2⟩
          rcases List.mem_cons.mp hp with rfl | hptl
          · exact absurd rfl hp2
          · exact ⟨p, hptl, hp1, hp2⟩
        obtain ⟨w, hw, ⟨q, hq, hq1, hq2⟩, hscan⟩ :=
          ih (fun p hp => hnil p (by simp [hp])) hex'
        refine ⟨w, hw, ⟨q, by simp [hq], hq1, hq2⟩, fun acc => ?_⟩
        rw [scanOutputs, if_pos ht, if_pos hnb, if_pos rfl, hscan]
      · refine ⟨v, hv, ⟨(t, v), by simp, ht, rfl⟩, fun acc => ?_⟩
        rw [scanOutputs, if_pos ht, if_pos hnb, if_neg hv]
    · have hex' : ∃ p ∈ tl, typeName p.1 = "error" ∧ p.2 ≠ GoValue.nilV := by
        rcases hex with ⟨p, hp, hp1, hp2⟩
        rcases List.mem_cons.mp hp with rfl | hptl
        · exact absurd hp1 ht
        · exact ⟨p, hptl, hp1, hp2⟩
      obtain ⟨w, hw, ⟨q, hq, hq1, hq2⟩, hscan⟩ :=
        ih (fun p hp => hnil p (by simp [hp])) hex'
      refine ⟨w, hw, ⟨q, by simp [hq], hq1, hq2⟩, fun acc => ?_⟩
      rw [scanOutputs, if_neg ht, hscan]

/-- In the surplus case, position-wise acceptance by `reflect.Call` of the
first `numIn` inputs implies the selection count of pipe.go lines 82-87
reaches `numIn`. -/
theorem countP_take_full (fn : Stage) (inputs : List GoValue)
    (hgt : fn.params.length < inputs.length)
    (hcompat : ∀ p ∈ (inputs.take fn.params.length).zip fn.params,
      assignOK p.1 p.2 = true) :
    (inputs.take fn.params.length).countP selectOK = fn.params.length := by
  have hlen : (inputs.take fn.params.length).length = fn.params.length := by
    rw [List.length_take]; exact min_eq_left hgt.le
  have hall : (inputs.take fn.params.length).countP selectOK =
      (inputs.take fn.params.length).length := by
    apply List.countP_eq_length.mpr
    intro v hv
    obtain ⟨u, hu⟩ := mem_zip_left _ fn.params (le_of_eq hlen) v hv
    exact selectOK_of_assignOK v u (hcompat (v, u) hu)
  rw [hall, hlen]

/-- Position-wise acceptance plus a matching argument count means
`reflect.Call` accepts the whole argument list. -/
theorem callOK_intro (fn : Stage) (args : List GoValue)
    (hlen : args.length = fn.params.length)
    (h : ∀ p ∈ args.zip fn.params, assignOK p.1 p.2 = true) :
    callOK fn args = true := by
  simp only [callOK, hlen, beq_self_eq_true, Bool.true_and, List.all_eq_true]
  exact fun p hp => h p hp

/-- Combined form: a loop iteration whose reconciliation and call both
succeed reduces to the output scan over the first `numIn` inputs. -/
theorem execStep_to_scan (fn : Stage) (inputs : List GoValue)
    (h1 : fn.params.length ≤ inputs.length)
    (h2 : fn.params.length < inputs.length →
      (inputs.take fn.params.length).countP selectOK = fn.params.length)
    (hcall : callOK fn (inputs.take fn.params.length) = true) :
    execStep fn inputs =
      scanOutputs []
        (fn.results.zip (fn.impl (inputs.take fn.params.length))) :=
  (execStep_call fn inputs h1 h2).trans (invokeStage_ok fn _ hcall)

/-- The `New` loop appends leading function candidates to the accumulated
sequence and continues with the remaining candidates. -/
theorem NewLoop_append_fns :
    ∀ (fs : List Stage) (l : List Candidate) (acc : List Stage),
      NewLoop (fs.map Candidate.fn ++ l) acc = NewLoop l (acc ++ fs) := by
  intro fs
  induction fs with
  | nil => intro l acc; simp
  | cons s fs ih =>
    intro l acc
    calc NewLoop ((s :: fs).map Candidate.fn ++ l) acc
        = NewLoop (fs.map Candidate.fn ++ l) (acc ++ [s]) := rfl
      _ = NewLoop l (acc ++ [s] ++ fs) := ih l (acc ++ [s])
      _ = NewLoop l (acc ++ s :: fs) := by
          rw [List.append_assoc, List.singleton_append]

/-! ### Claims -/

/-- C1. The claim says the surplus case selects each of the first `numIn`
values if and only if that value is assignable to the declared parameter
type at that position, returning `ArgumentTypeError` otherwise. The code
(pipe.go line 83) instead compares the dynamic type of `inputs[i]` with
itself — `in[i]` holds `inputs[i]`, not the declared type `fnType.In(i)` —
so the check degenerates to a non-nil test. Evaluating at the failing input:
a pipeline of one stage `func(int) int` executed on `("x", 1)` is in the
surplus case; the string is not assignable to the declared `int` parameter,
yet the selection accepts it and the reflective call panics, instead of
`Execute` returning the invalid-arguments error. -/
theorem c1_surplus_check_ignores_declared_type :
    assignableTo GoType.str GoType.int = false ∧
    selectOK (GoValue.strV "x") = true ∧
    Pipe.Execute ⟨[incStage]⟩ [GoValue.strV "x", GoValue.intV 1] =
      .panicked := by
  refine ⟨rfl, rfl, rfl⟩

/-- C2. Whenever a stage is reached and invoked (its reconciliation and the
reflective call succeed) and any returned value sitting in a result slot
whose declared type is named "error" is non-nil, `Execute` returns the first
such value as its error result with nil outputs, and no later stage runs:
the result is `failed`, independent of the remaining stages `rest`. -/
theorem c2_failure_short_circuit (fn : Stage) (rest : List Stage)
    (inputs : List GoValue)
    (h1 : fn.params.length ≤ inputs.length)
    (h2 : fn.params.length < inputs.length →
      (inputs.take fn.params.length).countP selectOK = fn.params.length)
    (hcall : callOK fn (inputs.take fn.params.length) = true)
    (hnilable : ∀ p ∈ fn.results.zip (fn.impl (inputs.take fn.params.length)),
      typeName p.1 = "error" → isNilable p.1 = true)
    (hfail : ∃ p ∈ fn.results.zip (fn.impl (inputs.take fn.params.length)),
      typeName p.1 = "error" ∧ p.2 ≠ GoValue.nilV) :
    ∃ v, v ≠ GoValue.nilV ∧
      (∃ p ∈ fn.results.zip (fn.impl (inputs.take fn.params.length)),
        typeName p.1 = "error" ∧ p.2 = v) ∧
      Pipe.Execute ⟨fn :: rest⟩ inputs = .failed (.stageErr v) := by
  obtain ⟨v, hv, hmem, hscan⟩ := scan_first_fail _ hnilable hfail
  refine ⟨v, hv, hmem, ?_⟩
  have hstep : execStep fn inputs = .failed (.stageErr v) :=
    (execStep_to_scan fn inputs h1 h2 hcall).trans (hscan [])
  exact ExecuteLoop_cons_failed fn rest inputs _ hstep

/-- C2 witness: `failStage` (declared `func(int) (int, error)`) returns a
non-nil error value, so a pipeline with a stage after it fails with exactly
that value. -/
theorem c2_failure_short_circuit_witness :
    ∃ v, v ≠ GoValue.nilV ∧
      (∃ p ∈ failStage.results.zip
          (failStage.impl (List.take failStage.params.length [GoValue.intV 5])),
        typeName p.1 = "error" ∧ p.2 = v) ∧
      Pipe.Execute ⟨[failStage, incStage]⟩ [GoValue.intV 5] =
        .failed (.stageErr v) :=
  c2_failure_short_circuit failStage [incStage] [GoValue.intV 5]
    (by decide) (by decide) (by decide) (by decide) (by decide)

/-- C3 counterexample. The claim says the values threaded to the next stage
are the stage outputs with a non-failing (nil) failure slot excluded. In the
code the nil error value is appended to `outputs` (pipe.go line 100) and
threaded: after `okStage` (declared `func(int) (int, error)`, returning a
nil error) the current values are `[5, nil]`, not `[5]`. Observable
end-to-end: the next stage `pairStage` declares two parameters, so under the
claim the run would stop with the arity error (only `[5]` available), but
the code reaches the exact case with `[5, nil]` and the reflective call
panics on the invalid nil argument. -/
theorem c3_nil_error_slot_is_threaded :
    execStep okStage [GoValue.intV 5] =
      .ok [GoValue.intV 5, GoValue.nilV] ∧
    ExecResult.ok [GoValue.intV 5, GoValue.nilV] ≠
      ExecResult.ok [GoValue.intV 5] ∧
    Pipe.Execute ⟨[okStage, pairStage]⟩ [GoValue.intV 5] = .panicked ∧
    ExecResult.panicked ≠ ExecResult.failed .arityErr := by
  refine ⟨rfl, by decide, rfl, by decide⟩

/-- C3 amended: after a stage that completes without a failing error value,
the values passed toward the next stage are exactly that stage's outputs
with the failure slot included — a nil failure-typed return value is part of
the threaded values. -/
theorem c3_outputs_threaded_wholesale (fn : Stage) (rest : List Stage)
    (inputs : List GoValue)
    (h1 : fn.params.length ≤ inputs.length)
    (h2 : fn.params.length < inputs.length →
      (inputs.take fn.params.length).countP selectOK = fn.params.length)
    (hcall : callOK fn (inputs.take fn.params.length) = true)
    (hlen : (fn.impl (inputs.take fn.params.length)).length =
      fn.results.length)
    (hnofail : ∀ p ∈ fn.results.zip (fn.impl (inputs.take fn.params.length)),
      typeName p.1 = "error" → (isNilable p.1 = true ∧ p.2 = GoValue.nilV)) :
    execStep fn inputs = .ok (fn.impl (inputs.take fn.params.length)) ∧
    Pipe.Execute ⟨fn :: rest⟩ inputs =
      ExecuteLoop rest (fn.impl (inputs.take fn.params.length)) := by
  have hstep : execStep fn inputs =
      .ok (fn.impl (inputs.take fn.params.length)) := by
    rw [execStep_to_scan fn inputs h1 h2 hcall, scan_no_fail _ [] hnofail,
      List.nil_append, List.map_snd_zip _ _ (le_of_eq hlen)]
  exact ⟨hstep, ExecuteLoop_cons_ok fn rest inputs _ hstep⟩

/-- C3 amended witness: `okStage` returns `(5, nil)`; both values, the nil
error included, become the inputs of the rest of the pipeline. -/
theorem c3_outputs_threaded_wholesale_witness :
    execStep okStage [GoValue.intV 5] =
      .ok (okStage.impl (List.take okStage.params.length [GoValue.intV 5])) ∧
    Pipe.Execute ⟨[okStage, incStage]⟩ [GoValue.intV 5] =
      ExecuteLoop [incStage]
        (okStage.impl (List.take okStage.params.length [GoValue.intV 5])) :=
  c3_outputs_threaded_wholesale okStage [incStage] [GoValue.intV 5]
    (by decide) (by decide) (by decide) (by decide) (by decide)

/-- C4. A stage reached with fewer current values than its declared
parameter count makes `Execute` return the arity error and abort: the result
is `failed .arityErr` (which carries no outputs), whatever the remaining
stages are; with `inputs` the initial arguments this covers the
first-stage case. -/
theorem c4_arity_deficit (fn : Stage) (rest : List Stage)
    (inputs : List GoValue)
    (h : inputs.length < fn.params.length) :
    Pipe.Execute ⟨fn :: rest⟩ inputs = .failed .arityErr := by
  have hstep : execStep fn inputs = .failed .arityErr := by
    simp only [execStep]
    rw [if_pos h]
  exact ExecuteLoop_cons_failed fn rest inputs _ hstep

/-- C4 witness: `pairStage` declares two parameters; executing the pipeline
on a single argument returns the arity error. -/
theorem c4_arity_deficit_witness :
    [GoValue.intV 10].length < pairStage.params.length ∧
    Pipe.Execute ⟨[pairStage]⟩ [GoValue.intV 10] = .failed .arityErr :=
  ⟨by decide, c4_arity_deficit pairStage [] [GoValue.intV 10] (by decide)⟩

/-- C5. In the surplus case, when each of the first `numIn` values is
accepted by the reflective call for the declared parameter type at its
position (position-wise assignable and non-nil), the stage is invoked on
exactly those first `numIn` values in their original order, the call does
not panic, and the run is identical to a run whose current values are only
those first `numIn` values — the surplus values are discarded and never
reach this or any later stage. -/
theorem c5_surplus_truncation (fn : Stage) (rest : List Stage)
    (inputs : List GoValue)
    (hgt : fn.params.length < inputs.length)
    (hcompat : ∀ p ∈ (inputs.take fn.params.length).zip fn.params,
      assignOK p.1 p.2 = true) :
    execStep fn inputs = invokeStage fn (inputs.take fn.params.length) ∧
    callOK fn (inputs.take fn.params.length) = true ∧
    Pipe.Execute ⟨fn :: rest⟩ inputs =
      Pipe.Execute ⟨fn :: rest⟩ (inputs.take fn.params.length) := by
  have hcount := countP_take_full fn inputs hgt hcompat
  have hlen : (inputs.take fn.params.length).length = fn.params.length := by
    rw [List.length_take]; exact min_eq_left hgt.le
  have hstep1 : execStep fn inputs =
      invokeStage fn (inputs.take fn.params.length) :=
    execStep_call fn inputs hgt.le (fun _ => hcount)
  have hstep2 : execStep fn (inputs.take fn.params.length) =
      invokeStage fn (inputs.take fn.params.length) := by
    simp only [execStep]
    rw [if_neg (by omega), if_neg (by omega)]
  refine ⟨hstep1, callOK_intro fn _ hlen hcompat, ?_⟩
  simp only [Pipe.Execute, ExecuteLoop]
  rw [hstep1, hstep2]

/-- C5 witness: `incStage` declares one `int` parameter; executed on
`(1, "extra")` it is invoked on `1` alone and the run equals the run on
just `1`. -/
theorem c5_surplus_truncation_witness :
    execStep incStage [GoValue.intV 1, GoValue.strV "extra"] =
      invokeStage incStage
        (List.take incStage.params.length
          [GoValue.intV 1, GoValue.strV "extra"]) ∧
    callOK incStage
      (List.take incStage.params.length
        [GoValue.intV 1, GoValue.strV "extra"]) = true ∧
    Pipe.Execute ⟨[incStage]⟩ [GoValue.intV 1, GoValue.strV "extra"] =
      Pipe.Execute ⟨[incStage]⟩
        (List.take incStage.params.length
          [GoValue.intV 1, GoValue.strV "extra"]) :=
  c5_surplus_truncation incStage [] [GoValue.intV 1, GoValue.strV "extra"]
    (by decide) (by decide)

/-- C6 counterexample. The claim says every call of `New` / `Add` with a
non-callable argument returns the not-callable error. A nil argument is not
callable, yet `New(nil)` and `Add(nil)` panic instead of returning the
error: `reflect.TypeOf(nil)` is a nil `reflect.Type` and calling `.Kind()`
on it is a nil dereference (pipe.go lines 20 and 30). -/
theorem c6_nil_candidate_panics :
    New [Candidate.val GoValue.nilV] = .panicked ∧
    Pipe.Add ⟨[]⟩ (Candidate.val GoValue.nilV) = (.panicked, ⟨[]⟩) ∧
    NewResult.panicked ≠ NewResult.notCallable ∧
    AddResult.panicked ≠ AddResult.notCallable :=
  ⟨rfl, rfl, fun h => NewResult.noConfusion h, fun h => AddResult.noConfusion h⟩

/-- C6 amended: every call of `New` whose first non-callable argument is
non-nil (preceded only by callable arguments) returns the not-callable
error and produces no pipe, and `Add` of a non-nil non-callable argument
returns the not-callable error and leaves the stage sequence exactly as it
was; a nil argument instead panics. -/
theorem c6_noncallable_rejected (fs : List Stage) (v : GoValue)
    (rest : List Candidate) (p : Pipe) (hv : v ≠ GoValue.nilV) :
    New (fs.map Candidate.fn ++ Candidate.val v :: rest) = .notCallable ∧
    p.Add (Candidate.val v) = (.notCallable, p) := by
  constructor
  · simp only [New, NewLoop_append_fns]
    cases v with
    | nilV => exact absurd rfl hv
    | intV n => rfl
    | strV s => rfl
    | errV t m => rfl
  · cases v with
    | nilV => exact absurd rfl hv
    | intV n => rfl
    | strV s => rfl
    | errV t m => rfl

/-- C6 amended witness: creating from a function followed by the integer 7
fails with the not-callable error, and adding 7 to an existing pipe fails
without mutating it. -/
theorem c6_noncallable_rejected_witness :
    GoValue.intV 7 ≠ GoValue.nilV ∧
    New ([incStage].map Candidate.fn ++
      Candidate.val (GoValue.intV 7) :: []) = .notCallable ∧
    Pipe.Add ⟨[incStage]⟩ (Candidate.val (GoValue.intV 7)) =
      (.notCallable, ⟨[incStage]⟩) := by
  refine ⟨by decide, ?_, ?_⟩
  · exact (c6_noncallable_rejected [incStage] (GoValue.intV 7) []
      ⟨[incStage]⟩ (by decide)).1
  · exact (c6_noncallable_rejected [incStage] (GoValue.intV 7) []
      ⟨[incStage]⟩ (by decide)).2

/-- C7 counterexample. The claim says that in the surplus case a nil value
among the supplied arguments always causes the invalid-arguments error. A
nil beyond the first `numIn` positions is never examined: executing the
one-parameter `incStage` on `(1, nil)` is a surplus call containing a nil,
yet it succeeds and returns `[2]`. -/
theorem c7_trailing_nil_accepted :
    incStage.params.length < [GoValue.intV 1, GoValue.nilV].length ∧
    GoValue.nilV ∈ [GoValue.intV 1, GoValue.nilV] ∧
    Pipe.Execute ⟨[incStage]⟩ [GoValue.intV 1, GoValue.nilV] =
      .ok [GoValue.intV 2] ∧
    ExecResult.ok [GoValue.intV 2] ≠ .failed .argTypeErr := by
  refine ⟨by decide, by decide, rfl, by decide⟩

/-- C7 amended: in the surplus case a nil value among the first `numIn`
current values is never considered compatible and always makes `Execute`
fail with the invalid-arguments error, aborting the run. -/
theorem c7_nil_in_first_positions_rejected (fn : Stage) (rest : List Stage)
    (inputs : List GoValue)
    (hgt : fn.params.length < inputs.length)
    (hnil : GoValue.nilV ∈ inputs.take fn.params.length) :
    Pipe.Execute ⟨fn :: rest⟩ inputs = .failed .argTypeErr := by
  have hlen : (inputs.take fn.params.length).length = fn.params.length := by
    rw [List.length_take]; exact min_eq_left hgt.le
  have hne : ¬ (inputs.take fn.params.length).countP selectOK =
      fn.params.length := by
    intro hcount
    have hall := List.countP_eq_length.mp (hcount.trans hlen.symm)
    have hsel := hall GoValue.nilV hnil
    simp [selectOK, typeOf] at hsel
  have hstep : execStep fn inputs = .failed .argTypeErr := by
    simp only [execStep]
    rw [if_neg (by omega), if_pos hgt, if_neg hne]
  exact ExecuteLoop_cons_failed fn rest inputs _ hstep

/-- C7 amended witness: a nil in the first position of a surplus call makes
the run fail with the invalid-arguments error. -/
theorem c7_nil_in_first_positions_rejected_witness :
    GoValue.nilV ∈
      List.take incStage.params.length [GoValue.nilV, GoValue.intV 1] ∧
    Pipe.Execute ⟨[incStage]⟩ [GoValue.nilV, GoValue.intV 1] =
      .failed .argTypeErr :=
  ⟨by decide, c7_nil_in_first_positions_rejected incStage []
    [GoValue.nilV, GoValue.intV 1] (by decide) (by decide)⟩

/-- C8. Executing a pipeline with zero stages returns the initial arguments
unchanged and no error: the loop body never runs and pipe.go line 113
returns `inputs` (still the arguments) with a nil error. -/
theorem c8_empty_pipeline_identity (args : List GoValue) :
    Pipe.Execute ⟨[]⟩ args = .ok args := rfl

/-- C9. The failure scan keys on the declared result type name being
exactly "error" (pipe.go line 101). A stage whose declared result types are
concrete named types that implement the error interface but are not
declared `error` never short-circuits: even non-nil returned error values
are threaded onward to the rest of the pipeline (or returned as the final
outputs when no stage follows). -/
theorem c9_concrete_error_type_threaded (fn : Stage) (rest : List Stage)
    (inputs : List GoValue)
    (h1 : fn.params.length ≤ inputs.length)
    (h2 : fn.params.length < inputs.length →
      (inputs.take fn.params.length).countP selectOK = fn.params.length)
    (hcall : callOK fn (inputs.take fn.params.length) = true)
    (hlen : (fn.impl (inputs.take fn.params.length)).length =
      fn.results.length)
    (htypes : ∀ t ∈ fn.results, ∃ n, t = GoType.namedErr n ∧ n ≠ "error") :
    (∀ t ∈ fn.results, implementsError t = true) ∧
    execStep fn inputs = .ok (fn.impl (inputs.take fn.params.length)) ∧
    Pipe.Execute ⟨fn :: rest⟩ inputs =
      ExecuteLoop rest (fn.impl (inputs.take fn.params.length)) := by
  have himpl : ∀ t ∈ fn.results, implementsError t = true := by
    intro t ht
    obtain ⟨n, hn, _⟩ := htypes t ht
    rw [hn]; rfl
  have hnofail : ∀ p ∈ fn.results.zip (fn.impl (inputs.take fn.params.length)),
      typeName p.1 = "error" → (isNilable p.1 = true ∧ p.2 = GoValue.nilV) := by
    intro p hp hname
    obtain ⟨t, v⟩ := p
    obtain ⟨ht, _⟩ := List.of_mem_zip hp
    obtain ⟨n, hn, hne⟩ := htypes t ht
    rw [hn] at hname
    exact absurd hname hne
  have hstep : execStep fn inputs =
      .ok (fn.impl (inputs.take fn.params.length)) := by
    rw [execStep_to_scan fn inputs h1 h2 hcall, scan_no_fail _ [] hnofail,
      List.nil_append, List.map_snd_zip _ _ (le_of_eq hlen)]
  exact ⟨himpl, hstep, ExecuteLoop_cons_ok fn rest inputs _ hstep⟩

/-- C9 witness: `myErrStage` declares the result type `MyErr`, a concrete
type implementing the error interface; its non-nil error value is threaded
into `sinkStage` instead of aborting the run. -/
theorem c9_concrete_error_type_threaded_witness :
    (∀ t ∈ myErrStage.results, implementsError t = true) ∧
    execStep myErrStage [GoValue.intV 1] =
      .ok (myErrStage.impl
        (List.take myErrStage.params.length [GoValue.intV 1])) ∧
    Pipe.Execute ⟨[myErrStage, sinkStage]⟩ [GoValue.intV 1] =
      ExecuteLoop [sinkStage]
        (myErrStage.impl
          (List.take myErrStage.params.length [GoValue.intV 1])) :=
  c9_concrete_error_type_threaded myErrStage [sinkStage] [GoValue.intV 1]
    (by decide) (by decide) (by decide) (by decide)
    (by
      intro t ht
      simp only [myErrStage, List.mem_singleton] at ht
      exact ⟨"MyErr", ht, by decide⟩)

/-- C10. In the exact-arity case the loop performs no compatibility or nil
check: the iteration goes straight to the reflective call on the inputs as
they are, and when some input is nil (an invalid `reflect.Value`) or not
assignable to the declared parameter type at its position, `Execute` panics
rather than returning an error — it is total only under the precondition
that exact-arity inputs are accepted by the call. -/
theorem c10_exact_case_unchecked (fn : Stage) (rest : List Stage)
    (inputs : List GoValue)
    (hlen : inputs.length = fn.params.length) :
    execStep fn inputs = invokeStage fn inputs ∧
    (callOK fn inputs = false →
      Pipe.Execute ⟨fn :: rest⟩ inputs = .panicked) := by
  have hstep : execStep fn inputs = invokeStage fn inputs := by
    simp only [execStep]
    rw [if_neg (by omega), if_neg (by omega)]
  refine ⟨hstep, fun hfalse => ?_⟩
  exact ExecuteLoop_cons_panicked fn rest inputs
    (hstep.trans (invokeStage_panic fn inputs hfalse))

/-- C10 witness: `incStage` called with exactly one value that is nil is
not caught by any check and the run panics. -/
theorem c10_exact_case_unchecked_witness :
    [GoValue.nilV].length = incStage.params.length ∧
    (execStep incStage [GoValue.nilV] = invokeStage incStage [GoValue.nilV] ∧
      (callOK incStage [GoValue.nilV] = false →
        Pipe.Execute ⟨[incStage]⟩ [GoValue.nilV] = .panicked)) :=
  ⟨rfl, c10_exact_case_unchecked incStage [] [GoValue.nilV] rfl⟩

end GoPipe
